import Mathlib

/-!
Verification of the first-order optimizer update rules of the `notebooks`
repository (chapter_optimization): `sgd_momentum`, `adagrad`, `rmsprop`,
`adam`, the toy 2-D momentum step `momentum_2d`, the EWMA recurrence,
and the toy 2-D trajectory runner.

Tensors are modelled as lists of exact rationals; the elementwise tensor
operations of the source (`+`, `-`, `*`, `/`, `.square()`, `.sqrt()`,
scalar broadcast) become `List.zipWith` / `List.map`.  The floating-point
square root has no exact rational counterpart, so every rule that calls
`.sqrt()` takes the square-root function `rt` as an explicit parameter;
all other arithmetic is exact.  In-place mutation of parameters, states
and the hyperparameter dictionary becomes explicit state passing: each
rule returns the updated parameter list, state list and hyperparameter
record.
-/

namespace Notebooks

/-- A tensor: a flat list of (exact rational stand-ins for) floats. -/
abbrev Tensor := List ℚ

/-- A trainable parameter `p`: its data and its gradient `p.grad`,
recomputed externally before each update call. -/
structure Param where
  data : Tensor
  grad : Tensor
deriving DecidableEq

/-- The hyperparameter dictionary.  The notebooks use string-keyed dicts
with keys `lr`, `momentum` (sgd_momentum), `gamma` (rmsprop) and `t`
(adam); modelled as one record holding all keys. -/
structure Hyperparams where
  lr : ℚ
  momentum : ℚ
  gamma : ℚ
  t : ℕ
deriving DecidableEq

/-- Elementwise tensor addition. -/
def tadd (a b : Tensor) : Tensor := List.zipWith (· + ·) a b

/-- Elementwise tensor subtraction. -/
def tsub (a b : Tensor) : Tensor := List.zipWith (· - ·) a b

/-- Elementwise tensor division. -/
def tdiv (a b : Tensor) : Tensor := List.zipWith (· / ·) a b

/-- Scalar times tensor (broadcast). -/
def smul (c : ℚ) (a : Tensor) : Tensor := a.map (fun x => c * x)

/-- Tensor divided by scalar (broadcast). -/
def sdiv (a : Tensor) (c : ℚ) : Tensor := a.map (fun x => x / c)

/-- Tensor plus scalar (broadcast), as in `s + eps`. -/
def addc (a : Tensor) (c : ℚ) : Tensor := a.map (fun x => x + c)

/-- Source `t.square()`: elementwise product of a tensor with itself. -/
def square (a : Tensor) : Tensor := List.zipWith (· * ·) a a

/-- Source `t.sqrt()`: elementwise square root, with the square-root function
`rt` supplied as a parameter (floats have no exact rational sqrt). -/
def tsqrt (rt : ℚ → ℚ) (a : Tensor) : Tensor := a.map rt

/-- One parameter of `sgd_momentum` (chapter_optimization momentum
notebook): `v[:] = hyperparams['momentum'] * v + hyperparams['lr'] *
p.grad; p[:] -= v`. -/
def sgd_momentumStep (hp : Hyperparams) (p : Param) (v : Tensor) :
    Param × Tensor :=
  let v2 := tadd (smul hp.momentum v) (smul hp.lr p.grad)
  ({ p with data := tsub p.data v2 }, v2)

/-- Source `sgd_momentum(params, states, hyperparams)`: the per-parameter loop
`for p, v in zip(params, states)`.  The hyperparameter dict is read
only, never written. -/
def sgd_momentum (params : List Param) (states : List Tensor)
    (hp : Hyperparams) : List Param × List Tensor × Hyperparams :=
  let upd := (params.zip states).map (fun q => sgd_momentumStep hp q.1 q.2)
  (upd.map Prod.fst, upd.map Prod.snd, hp)

/-- One parameter of `adagrad` (adagrad.ipynb): `eps = 1e-6; s[:] +=
p.grad.square(); p[:] -= hyperparams['lr'] * p.grad / (s + eps).sqrt()`. -/
def adagradStep (rt : ℚ → ℚ) (hp : Hyperparams) (p : Param) (s : Tensor) :
    Param × Tensor :=
  let eps : ℚ := 1e-6
  let s2 := tadd s (square p.grad)
  let d2 := tsub p.data (tdiv (smul hp.lr p.grad) (tsqrt rt (addc s2 eps)))
  ({ p with data := d2 }, s2)

/-- Source `adagrad(params, states, hyperparams)`: the loop
`for p, s in zip(params, states)`. -/
def adagrad (rt : ℚ → ℚ) (params : List Param) (states : List Tensor)
    (hp : Hyperparams) : List Param × List Tensor × Hyperparams :=
  let upd := (params.zip states).map (fun q => adagradStep rt hp q.1 q.2)
  (upd.map Prod.fst, upd.map Prod.snd, hp)

/-- One parameter of `rmsprop` (rmsprop.ipynb): `gamma, eps =
hyperparams['gamma'], 1e-6; s[:] = gamma * s + (1 - gamma) *
p.grad.square(); p[:] -= hyperparams['lr'] * p.grad / (s + eps).sqrt()`. -/
def rmspropStep (rt : ℚ → ℚ) (hp : Hyperparams) (p : Param) (s : Tensor) :
    Param × Tensor :=
  let eps : ℚ := 1e-6
  let s2 := tadd (smul hp.gamma s) (smul (1 - hp.gamma) (square p.grad))
  let d2 := tsub p.data (tdiv (smul hp.lr p.grad) (tsqrt rt (addc s2 eps)))
  ({ p with data := d2 }, s2)

/-- Source `rmsprop(params, states, hyperparams)`: the loop
`for p, s in zip(params, states)`. -/
def rmsprop (rt : ℚ → ℚ) (params : List Param) (states : List Tensor)
    (hp : Hyperparams) : List Param × List Tensor × Hyperparams :=
  let upd := (params.zip states).map (fun q => rmspropStep rt hp q.1 q.2)
  (upd.map Prod.fst, upd.map Prod.snd, hp)

/-- One parameter of `adam` (adam.ipynb): `beta1, beta2, eps = 0.9,
0.999, 1e-6; v[:] = beta1 * v + (1 - beta1) * p.grad; s[:] = beta2 * s +
(1 - beta2) * p.grad.square(); v_bias_corr = v / (1 - beta1 **
hyperparams['t']); s_bias_corr = s / (1 - beta2 ** hyperparams['t']);
p[:] -= hyperparams['lr'] * v_bias_corr / (s_bias_corr.sqrt() + eps)`. -/
def adamStep (rt : ℚ → ℚ) (hp : Hyperparams) (p : Param)
    (vs : Tensor × Tensor) : Param × Tensor × Tensor :=
  let beta1 : ℚ := 0.9
  let beta2 : ℚ := 0.999
  let eps : ℚ := 1e-6
  let v2 := tadd (smul beta1 vs.1) (smul (1 - beta1) p.grad)
  let s2 := tadd (smul beta2 vs.2) (smul (1 - beta2) (square p.grad))
  let v_bias_corr := sdiv v2 (1 - beta1 ^ hp.t)
  let s_bias_corr := sdiv s2 (1 - beta2 ^ hp.t)
  let d2 := tsub p.data
    (tdiv (smul hp.lr v_bias_corr) (addc (tsqrt rt s_bias_corr) eps))
  ({ p with data := d2 }, v2, s2)

/-- Source `adam(params, states, hyperparams)`: the loop
`for p, (v, s) in zip(params, states)`, followed by
`hyperparams['t'] += 1` once, after the whole loop. -/
def adam (rt : ℚ → ℚ) (params : List Param)
    (states : List (Tensor × Tensor)) (hp : Hyperparams) :
    List Param × List (Tensor × Tensor) × Hyperparams :=
  let upd := (params.zip states).map (fun q => adamStep rt hp q.1 q.2)
  (upd.map Prod.fst, upd.map Prod.snd, { hp with t := hp.t + 1 })

/-- Source `momentum_2d(x1, x2, v1, v2)` from the momentum notebook, with the
globals `eta` and `gamma` made explicit:
`v1 = gamma * v1 + eta * 0.2 * x1; v2 = gamma * v2 + eta * 4 * x2;
return x1 - v1, x2 - v2, v1, v2`. -/
def momentum_2d (eta gamma x1 x2 v1 v2 : ℚ) : ℚ × ℚ × ℚ × ℚ :=
  let w1 := gamma * v1 + eta * 0.2 * x1
  let w2 := gamma * v2 + eta * 4 * x2
  (x1 - w1, x2 - w2, w1, w2)

/-- Modelled from the spec: the Ewma component has no implementation
under src/ (only the derivation in the momentum notebook's markdown);
per the spec, `y_t ← γ·y_{t-1} + (1-γ)·x_t` with `y_0 = 0`. -/
def ewma {α : Type} [CommRing α] (γ : α) (x : ℕ → α) : ℕ → α
  | 0 => 0
  | t + 1 => γ * ewma γ x t + (1 - γ) * x (t + 1)

/-- Modelled from the spec: the Toy 2-D Trajectory Runner
(`d2l.train_2d`) is imported from the external `d2l` package, not under
src/; per the spec it iterates a step function from a fixed initial
point and produces the ordered finite sequence of states visited. -/
def train_2d {α : Type} (step : α → α) : α → ℕ → List α
  | _, 0 => []
  | st, n + 1 => step st :: train_2d step (step st) n

/-- A run of a step function: `Trace f s l` holds exactly when `l` is
the sequence of states some execution of the (deterministic,
randomness-free) runner visits starting from `s`. -/
inductive Trace {α : Type} (f : α → α) : α → List α → Prop
  | nil (s : α) : Trace f s []
  | cons (s : α) (l : List α) : Trace f (f s) l → Trace f s (f s :: l)

/-- The rule `rmsprop` iterated n times on a single parameter, feeding it the
externally supplied gradient `g i` at iteration `i`. -/
def rmspropIter (rt : ℚ → ℚ) (hp : Hyperparams) (g : ℕ → Tensor)
    (p0 : Param) (s0 : Tensor) : ℕ → Param × Tensor
  | 0 => (p0, s0)
  | n + 1 =>
    let prev := rmspropIter rt hp g p0 s0 n
    rmspropStep rt hp { prev.1 with grad := g n } prev.2

/-- The rule `adagrad` iterated n times on a single parameter, feeding it the
externally supplied gradient `g i` at iteration `i`. -/
def adagradIter (rt : ℚ → ℚ) (hp : Hyperparams) (g : ℕ → Tensor)
    (p0 : Param) (s0 : Tensor) : ℕ → Param × Tensor
  | 0 => (p0, s0)
  | n + 1 =>
    let prev := adagradIter rt hp g p0 s0 n
    adagradStep rt hp { prev.1 with grad := g n } prev.2

/-- The Adam per-pair update exactly as the specification words it:
`v ← 0.9·v + 0.1·g`, `s ← 0.999·s + 0.001·g⊙g`, `v̂ = v/(1-0.9^t)`,
`ŝ = s/(1-0.999^t)`, `x ← x − lr·v̂/(√ŝ + ε)` with `ε = 1e-6` added
outside the square root.  Returns `(x, v, s)` after the update. -/
def adamClaim (rt : ℚ → ℚ) (lr : ℚ) (t : ℕ) (x g v s : Tensor) :
    Tensor × Tensor × Tensor :=
  let v2 := List.zipWith (fun vj gj => 0.9 * vj + 0.1 * gj) v g
  let s2 := List.zipWith (fun sj gj => 0.999 * sj + 0.001 * (gj * gj)) s g
  let vhat := v2.map (fun vj => vj / (1 - (0.9 : ℚ) ^ t))
  let shat := s2.map (fun sj => sj / (1 - (0.999 : ℚ) ^ t))
  let x2 := List.zipWith (fun xj dj => xj - dj) x
      (List.zipWith (fun vj sj => lr * vj / (rt sj + 1e-6)) vhat shat)
  (x2, v2, s2)

/-! ### Elementwise characterizations of the state updates -/

theorem tadd_smul_smul (a b : ℚ) (x y : Tensor) :
    tadd (smul a x) (smul b y) =
      List.zipWith (fun u w => a * u + b * w) x y := by
  simp [tadd, smul, List.zipWith_map]

theorem smul_square (b : ℚ) (g : Tensor) :
    smul b (square g) = g.map (fun gj => b * (gj * gj)) := by
  simp [smul, square, List.zipWith_same, List.map_map, Function.comp]

theorem rmspropStep_state (rt : ℚ → ℚ) (hp : Hyperparams) (p : Param)
    (s : Tensor) :
    (rmspropStep rt hp p s).2 =
      List.zipWith (fun sj gj => hp.gamma * sj + (1 - hp.gamma) * (gj * gj))
        s p.grad := by
  simp only [rmspropStep, smul_square]
  simp only [tadd, smul, List.zipWith_map]

theorem adagradStep_state (rt : ℚ → ℚ) (hp : Hyperparams) (p : Param)
    (s : Tensor) :
    (adagradStep rt hp p s).2 =
      List.zipWith (fun sj gj => sj + gj * gj) s p.grad := by
  simp only [adagradStep, tadd, square, List.zipWith_same,
    List.zipWith_map_right]

theorem adamStep_eq_claim (rt : ℚ → ℚ) (hp : Hyperparams) (p : Param)
    (vs : Tensor × Tensor) :
    adamStep rt hp p vs =
      ({ p with data := (adamClaim rt hp.lr hp.t p.data p.grad vs.1 vs.2).1 },
       (adamClaim rt hp.lr hp.t p.data p.grad vs.1 vs.2).2.1,
       (adamClaim rt hp.lr hp.t p.data p.grad vs.1 vs.2).2.2) := by
  simp only [adamStep, adamClaim, smul_square, tadd_smul_smul, tsub, tdiv,
    sdiv, addc, tsqrt, smul, List.zipWith_map, List.map_map, Function.comp]
  norm_num
  simp [tadd, square, List.zipWith_same, List.map_map, List.zipWith_map,
    Function.comp]

/-- C1: each parameter-state pair of an `adam` call is updated by
`v ← 0.9v+0.1g`, `s ← 0.999s+0.001g⊙g`, `v̂ = v/(1-0.9^t)`,
`ŝ = s/(1-0.999^t)`, `x ← x − lr·v̂/(√ŝ+ε)` with `ε = 1e-6` added
outside the square root, every pair using the incoming time step
`hp.t`, and `t` is incremented by exactly 1 once per call, after all
parameters are processed — not once per parameter. -/
theorem adam_matches_claimed_update (rt : ℚ → ℚ) (params : List Param)
    (states : List (Tensor × Tensor)) (hp : Hyperparams) (h : 1 ≤ hp.t) :
    adam rt params states hp =
      ((params.zip states).map (fun q =>
         { q.1 with
           data := (adamClaim rt hp.lr hp.t q.1.data q.1.grad q.2.1 q.2.2).1 }),
       (params.zip states).map (fun q =>
         ((adamClaim rt hp.lr hp.t q.1.data q.1.grad q.2.1 q.2.2).2.1,
          (adamClaim rt hp.lr hp.t q.1.data q.1.grad q.2.1 q.2.2).2.2)),
       { hp with t := hp.t + 1 }) := by
  simp only [adam, List.map_map, Function.comp, adamStep_eq_claim]
  rfl

/-- Witness for C1 at a concrete input: one parameter with data `[2]`,
gradient `[3]`, state `([0], [0])`, `lr = 1/2`, `t = 1`, square root
instantiated with the identity function. -/
theorem adam_matches_claimed_update_witness :
    adam (fun q => q) [⟨[2], [3]⟩] [([0], [0])]
        { lr := 1/2, momentum := 0, gamma := 0, t := 1 } =
      ((([⟨[2], [3]⟩] : List Param).zip [([0], [0])]).map (fun q =>
         { q.1 with data := (adamClaim (fun q => q) (1/2) 1
             q.1.data q.1.grad q.2.1 q.2.2).1 }),
       (([⟨[2], [3]⟩] : List Param).zip [([0], [0])]).map (fun q =>
         ((adamClaim (fun q => q) (1/2) 1 q.1.data q.1.grad q.2.1 q.2.2).2.1,
          (adamClaim (fun q => q) (1/2) 1 q.1.data q.1.grad q.2.1 q.2.2).2.2)),
       { lr := 1/2, momentum := 0, gamma := 0, t := 2 }) :=
  adam_matches_claimed_update (fun q => q) [⟨[2], [3]⟩] [([0], [0])]
    { lr := 1/2, momentum := 0, gamma := 0, t := 1 } (by decide)

theorem zipWith_snd_of_length_eq {α β γ : Type} (f : β → γ) :
    ∀ (l1 : List α) (l2 : List β), l1.length = l2.length →
      List.zipWith (fun _ b => f b) l1 l2 = l2.map f
  | [], [], _ => rfl
  | [], _ :: _, h => by simp at h
  | _ :: _, [], h => by simp at h
  | _ :: t1, _ :: t2, h => by
    simp only [List.zipWith_cons_cons, List.map_cons, List.cons.injEq,
      true_and]
    exact zipWith_snd_of_length_eq f t1 t2 (by simpa using h)

/-- C6: with the momentum hyperparameter set to 0, `sgd_momentum`'s
per-parameter update is exactly plain gradient descent
`x ← x − lr·g`, and the velocity becomes `lr·g`, regardless of the
prior velocity value. -/
theorem sgd_momentum_zero_momentum (lr g0 : ℚ) (t0 : ℕ) (p : Param)
    (v : Tensor) (h : v.length = p.grad.length) :
    sgd_momentumStep { lr := lr, momentum := 0, gamma := g0, t := t0 } p v =
      ({ p with
         data := List.zipWith (fun xj gj => xj - lr * gj) p.data p.grad },
       p.grad.map (fun gj => lr * gj)) := by
  have hv : tadd (smul 0 v) (smul lr p.grad) =
      p.grad.map (fun gj => lr * gj) := by
    rw [tadd_smul_smul]
    have : (fun u w : ℚ => 0 * u + lr * w) = (fun _ w : ℚ => lr * w) := by
      funext u w; ring
    rw [this, zipWith_snd_of_length_eq _ _ _ h]
  simp only [sgd_momentumStep, hv, tsub, List.zipWith_map_right]

/-- Witness for C6: parameter data `[1]`, gradient `[3]`, velocity
`[5]`, learning rate 2. -/
theorem sgd_momentum_zero_momentum_witness :
    sgd_momentumStep { lr := 2, momentum := 0, gamma := 0, t := 0 }
        ⟨[1], [3]⟩ [5] =
      ({ data := List.zipWith (fun xj gj => xj - 2 * gj) [1] [3],
         grad := [3] },
       ([3] : Tensor).map (fun gj => 2 * gj)) :=
  sgd_momentum_zero_momentum 2 0 0 ⟨[1], [3]⟩ [5] (by decide)

/-- C9: `momentum_2d` returns exactly the values obtained by applying
the general `sgd_momentum` rule componentwise with the closed-form
gradient `(0.2·x1, 4·x2)` of `f(x1,x2) = 0.1·x1² + 2·x2²`. -/
theorem momentum_2d_refines_sgd_momentum
    (eta gamma x1 x2 v1 v2 g0 : ℚ) (t0 : ℕ) :
    sgd_momentum [⟨[x1, x2], [0.2 * x1, 4 * x2]⟩] [[v1, v2]]
        { lr := eta, momentum := gamma, gamma := g0, t := t0 } =
      ([⟨[(momentum_2d eta gamma x1 x2 v1 v2).1,
          (momentum_2d eta gamma x1 x2 v1 v2).2.1],
         [0.2 * x1, 4 * x2]⟩],
       [[(momentum_2d eta gamma x1 x2 v1 v2).2.2.1,
         (momentum_2d eta gamma x1 x2 v1 v2).2.2.2]],
       { lr := eta, momentum := gamma, gamma := g0, t := t0 }) := by
  simp only [sgd_momentum, sgd_momentumStep, momentum_2d, tadd, tsub, smul,
    List.zip_cons_cons, List.zip_nil_right, List.map_cons, List.map_nil,
    List.zipWith_cons_cons, List.zipWith_nil_right, Prod.mk.injEq,
    List.cons.injEq, and_true, true_and, Param.mk.injEq]
  refine ⟨⟨?_, ?_⟩, ?_, ?_⟩ <;> ring

/-- A run of a deterministic step function is unique: two traces from
the same start state with the same length are equal. -/
theorem Trace.unique {α : Type} {f : α → α} :
    ∀ {s : α} {l1 l2 : List α}, Trace f s l1 → Trace f s l2 →
      l1.length = l2.length → l1 = l2 := by
  intro s l1 l2 h1
  induction h1 generalizing l2 with
  | nil s =>
    intro h2 hl
    cases h2 with
    | nil => rfl
    | cons _ _ _ => simp at hl
  | cons s l _ ih =>
    intro h2 hl
    cases h2 with
    | nil => simp at hl
    | cons _ l' h' =>
      simp only [List.length_cons, Nat.add_right_cancel_iff] at hl
      rw [ih h' hl]

theorem train_2d_isTrace {α : Type} (f : α → α) (s : α) (n : ℕ) :
    Trace f s (train_2d f s n) := by
  induction n generalizing s with
  | zero => exact Trace.nil s
  | succ n ih => exact Trace.cons s _ (ih (f s))

theorem train_2d_length {α : Type} (f : α → α) (s : α) (n : ℕ) :
    (train_2d f s n).length = n := by
  induction n generalizing s with
  | zero => rfl
  | succ n ih => simp [train_2d, ih]

/-- C8: the 20-step trajectory of the toy runner driving `momentum_2d`
with `eta = 0.4`, `gamma = 0.5` from `(x1, x2) = (-5, -2)` (velocities
zero-initialized) is deterministic: any two runs with these inputs
produce identical point sequences — the step function uses no
randomness. -/
theorem momentum_trajectory_deterministic (l1 l2 : List (ℚ × ℚ × ℚ × ℚ))
    (h1 : Trace (fun st => momentum_2d 0.4 0.5 st.1 st.2.1 st.2.2.1 st.2.2.2)
        (-5, -2, 0, 0) l1)
    (h2 : Trace (fun st => momentum_2d 0.4 0.5 st.1 st.2.1 st.2.2.1 st.2.2.2)
        (-5, -2, 0, 0) l2)
    (n1 : l1.length = 20) (n2 : l2.length = 20) : l1 = l2 :=
  Trace.unique h1 h2 (by rw [n1, n2])

/-- Witness for C8: two 20-step executions of the runner coincide. -/
theorem momentum_trajectory_deterministic_witness :
    train_2d (fun st => momentum_2d 0.4 0.5 st.1 st.2.1 st.2.2.1 st.2.2.2)
        (-5, -2, 0, 0) 20 =
      train_2d (fun st => momentum_2d 0.4 0.5 st.1 st.2.1 st.2.2.1 st.2.2.2)
        (-5, -2, 0, 0) 20 :=
  momentum_trajectory_deterministic _ _
    (train_2d_isTrace _ _ 20) (train_2d_isTrace _ _ 20)
    (train_2d_length _ _ 20) (train_2d_length _ _ 20)

/-- C10: `sgd_momentum`, `adagrad` and `rmsprop` return the
hyperparameter record completely unchanged; `adam` increments its `t`
entry by exactly one per call and leaves every other entry (`lr`,
`momentum`, `gamma`) unchanged. -/
theorem hyperparams_frame :
    (∀ params states hp, (sgd_momentum params states hp).2.2 = hp) ∧
    (∀ rt params states hp, (adagrad rt params states hp).2.2 = hp) ∧
    (∀ rt params states hp, (rmsprop rt params states hp).2.2 = hp) ∧
    (∀ rt params states hp, (adam rt params states hp).2.2 =
      { lr := hp.lr, momentum := hp.momentum, gamma := hp.gamma,
        t := hp.t + 1 }) :=
  ⟨fun _ _ _ => rfl, fun _ _ _ _ => rfl, fun _ _ _ _ => rfl,
   fun _ _ _ _ => rfl⟩

/-- C4: the Adagrad accumulator is non-decreasing: an `adagrad` call
maps each parameter-state pair through `adagradStep`, and after each
step every element of the accumulator `s` is at least its value before
the step, for any gradient. -/
theorem adagrad_state_nondecreasing :
    (∀ rt params states hp,
      (adagrad rt params states hp).2.1 =
        (params.zip states).map (fun q => (adagradStep rt hp q.1 q.2).2)) ∧
    (∀ (rt : ℚ → ℚ) (hp : Hyperparams) (p : Param) (s : Tensor) (j : ℕ),
      j < ((adagradStep rt hp p s).2).length →
        s.getD j 0 ≤ ((adagradStep rt hp p s).2).getD j 0) := by
  constructor
  · intro rt params states hp
    simp only [adagrad, List.map_map]
    rfl
  · intro rt hp p s j hj
    rw [adagradStep_state] at hj ⊢
    have hs : j < s.length := by
      rw [List.length_zipWith] at hj
      exact lt_of_lt_of_le hj (min_le_left _ _)
    rw [List.getD_eq_getElem _ _ hs, List.getD_eq_getElem _ _ hj,
      List.getElem_zipWith]
    exact le_add_of_nonneg_right (mul_self_nonneg _)

/-- Witness for C4 at a concrete input: accumulator `[2]`, gradient
`[3]`, element 0. -/
theorem adagrad_state_nondecreasing_witness :
    ([2] : Tensor).getD 0 0 ≤
      ((adagradStep (fun q => q) { lr := 1, momentum := 0, gamma := 0, t := 0 }
          ⟨[5], [3]⟩ [2]).2).getD 0 0 :=
  adagrad_state_nondecreasing.2 (fun q => q)
    { lr := 1, momentum := 0, gamma := 0, t := 0 } ⟨[5], [3]⟩ [2] 0 (by decide)

theorem rmspropIter_state_invariant (rt : ℚ → ℚ) (hp : Hyperparams)
    (g : ℕ → Tensor) (p0 : Param) (k : ℕ) (G : ℚ)
    (h0 : 0 ≤ hp.gamma) (h1 : hp.gamma < 1)
    (hk : ∀ n, (g n).length = k)
    (hG : ∀ (n j : ℕ) (hj : j < (g n).length), |(g n).get ⟨j, hj⟩| ≤ G) :
    ∀ n : ℕ,
      ((rmspropIter rt hp g p0 (List.replicate k 0) n).2).length = k ∧
      ∀ j : ℕ,
        j < ((rmspropIter rt hp g p0 (List.replicate k 0) n).2).length →
        ((rmspropIter rt hp g p0 (List.replicate k 0) n).2).getD j 0 ≤
          G ^ 2 := by
  intro n
  induction n with
  | zero =>
    refine ⟨List.length_replicate _ _, ?_⟩
    intro j hj
    simp only [rmspropIter] at hj ⊢
    rw [List.getD_eq_getElem _ _ hj, List.getElem_replicate]
    exact sq_nonneg G
  | succ n ih =>
    obtain ⟨ihlen, ihbound⟩ := ih
    have hstate : (rmspropIter rt hp g p0 (List.replicate k 0) (n + 1)).2 =
        List.zipWith
          (fun sj gj => hp.gamma * sj + (1 - hp.gamma) * (gj * gj))
          (rmspropIter rt hp g p0 (List.replicate k 0) n).2 (g n) := by
      simp only [rmspropIter, rmspropStep_state]
    constructor
    · rw [hstate, List.length_zipWith, ihlen, hk n, min_self]
    · intro j hj
      rw [hstate] at hj ⊢
      have hs : j < ((rmspropIter rt hp g p0 (List.replicate k 0) n).2).length := by
        rw [List.length_zipWith] at hj
        exact lt_of_lt_of_le hj (min_le_left _ _)
      have hgj : j < (g n).length := by
        rw [List.length_zipWith] at hj
        exact lt_of_lt_of_le hj (min_le_right _ _)
      rw [List.getD_eq_getElem _ _ hj, List.getElem_zipWith]
      have hsb : ((rmspropIter rt hp g p0 (List.replicate k 0) n).2)[j] ≤
          G ^ 2 := by
        have := ihbound j hs
        rwa [List.getD_eq_getElem _ _ hs] at this
      have hgb : (g n)[j] * (g n)[j] ≤ G ^ 2 := by
        have ha := hG n j hgj
        rw [List.get_eq_getElem] at ha
        calc (g n)[j] * (g n)[j]
            = |(g n)[j]| * |(g n)[j]| := (abs_mul_abs_self _).symm
          _ ≤ G * G := mul_self_le_mul_self (abs_nonneg _) ha
          _ = G ^ 2 := (pow_two G).symm
      calc hp.gamma *
            ((rmspropIter rt hp g p0 (List.replicate k 0) n).2)[j] +
            (1 - hp.gamma) * ((g n)[j] * (g n)[j])
          ≤ hp.gamma * G ^ 2 + (1 - hp.gamma) * G ^ 2 :=
            add_le_add (mul_le_mul_of_nonneg_left hsb h0)
              (mul_le_mul_of_nonneg_left hgb (by linarith))
        _ = G ^ 2 := by ring

theorem adagradIter_const_state (rt : ℚ → ℚ) (hp : Hyperparams)
    (p0 : Param) (k : ℕ) (c : ℚ) :
    ∀ n : ℕ, (adagradIter rt hp (fun _ => List.replicate k c) p0
        (List.replicate k 0) n).2 = List.replicate k ((n : ℚ) * (c * c)) := by
  intro n
  induction n with
  | zero => simp [adagradIter]
  | succ n ih =>
    simp only [adagradIter, ih, adagradStep_state, List.zipWith_replicate,
      min_self]
    congr 1
    push_cast
    ring

/-- C5: with γ ∈ [0,1), zero-initialized state, and every gradient
element of magnitude at most G, every element of RMSProp's accumulator
stays at most G² at every iteration; in contrast, Adagrad's accumulator
on a constant nonzero gradient exceeds any bound B at some iteration. -/
theorem rmsprop_bounded_adagrad_unbounded :
    (∀ (rt : ℚ → ℚ) (hp : Hyperparams) (g : ℕ → Tensor) (p0 : Param)
       (k : ℕ) (G : ℚ),
      0 ≤ hp.gamma → hp.gamma < 1 →
      (∀ n, (g n).length = k) →
      (∀ (n j : ℕ) (hj : j < (g n).length), |(g n).get ⟨j, hj⟩| ≤ G) →
      ∀ n j : ℕ,
        j < ((rmspropIter rt hp g p0 (List.replicate k 0) n).2).length →
        ((rmspropIter rt hp g p0 (List.replicate k 0) n).2).getD j 0 ≤
          G ^ 2) ∧
    (∀ (rt : ℚ → ℚ) (hp : Hyperparams) (p0 : Param) (k : ℕ) (c : ℚ),
      c ≠ 0 → ∀ B : ℚ, ∃ n : ℕ, ∀ j : ℕ,
        j < ((adagradIter rt hp (fun _ => List.replicate k c) p0
            (List.replicate k 0) n).2).length →
        B < ((adagradIter rt hp (fun _ => List.replicate k c) p0
            (List.replicate k 0) n).2).getD j 0) := by
  constructor
  · intro rt hp g p0 k G h0 h1 hk hG n j hj
    exact (rmspropIter_state_invariant rt hp g p0 k G h0 h1 hk hG n).2 j hj
  · intro rt hp p0 k c hc B
    obtain ⟨n, hn⟩ := exists_nat_gt (B / (c * c))
    refine ⟨n, fun j hj => ?_⟩
    rw [adagradIter_const_state] at hj ⊢
    rw [List.getD_eq_getElem _ _ hj, List.getElem_replicate]
    have hc2 : 0 < c * c := mul_self_pos.mpr hc
    exact (div_lt_iff₀ hc2).mp hn

/-- Witness for C5: γ = 1/2, the constant all-ones gradient on a
1-element tensor bounded by G = 1 keeps the RMSProp accumulator at most
1 after 3 iterations; the Adagrad accumulator on constant gradient `[1]`
eventually exceeds B = 100. -/
theorem rmsprop_bounded_adagrad_unbounded_witness :
    (((rmspropIter (fun q => q)
          { lr := 1, momentum := 0, gamma := 1/2, t := 0 }
          (fun _ => [1]) ⟨[0], [1]⟩ (List.replicate 1 0) 3).2).getD 0 0 ≤
        (1 : ℚ) ^ 2) ∧
    ∃ n : ℕ, ∀ j : ℕ,
      j < ((adagradIter (fun q => q)
          { lr := 1, momentum := 0, gamma := 1/2, t := 0 }
          (fun _ => List.replicate 1 1) ⟨[0], [1]⟩
          (List.replicate 1 0) n).2).length →
      (100 : ℚ) < ((adagradIter (fun q => q)
          { lr := 1, momentum := 0, gamma := 1/2, t := 0 }
          (fun _ => List.replicate 1 1) ⟨[0], [1]⟩
          (List.replicate 1 0) n).2).getD j 0 :=
  ⟨rmsprop_bounded_adagrad_unbounded.1 (fun q => q)
      { lr := 1, momentum := 0, gamma := 1/2, t := 0 }
      (fun _ => [1]) ⟨[0], [1]⟩ 1 1 (by norm_num) (by norm_num)
      (fun _ => rfl)
      (by
        intro n j hj
        simp only [List.length_singleton, Nat.lt_one_iff] at hj
        subst hj
        simp) 3 0
      (by decide),
   rmsprop_bounded_adagrad_unbounded.2 (fun q => q)
      { lr := 1, momentum := 0, gamma := 1/2, t := 0 }
      ⟨[0], [1]⟩ 1 1 (by norm_num) 100⟩

theorem ewma_const {α : Type} [CommRing α] (γ c : α) (t : ℕ) :
    ewma γ (fun _ => c) t = c * (1 - γ ^ t) := by
  induction t with
  | zero => simp [ewma]
  | succ t ih =>
    simp only [ewma, ih, pow_succ]
    ring

/-- C2 counterexample: for γ = 0.9 and the constant input 1, the Ewma
estimate after 20 steps is NOT within 1e-3 of the limit — the distance
is 0.9^20 ≈ 0.12. -/
theorem ewma_20_not_within_milli :
    ¬ |ewma (0.9 : ℚ) (fun _ => (1 : ℚ)) 20 - 1| < 1/1000 := by
  rw [ewma_const]
  rw [abs_sub_comm]
  norm_num
  rw [abs_of_nonneg (by norm_num)]
  norm_num

/-- C2 (amended): for every γ ∈ (0,1) and constant input sequence
`x_t = c`, the Ewma estimate converges to c as t grows; for γ = 0.9 and
c = 1, the distance after 20 steps is 0.9^20, which is below 0.122 but
not below 1e-3. -/
theorem ewma_const_converges :
    (∀ γ c : ℝ, 0 < γ → γ < 1 →
      Filter.Tendsto (fun t => ewma γ (fun _ => c) t) Filter.atTop
        (nhds c)) ∧
    |ewma (0.9 : ℚ) (fun _ => (1 : ℚ)) 20 - 1| < 122/1000 := by
  constructor
  · intro γ c h0 h1
    have hpow : Filter.Tendsto (fun t : ℕ => γ ^ t) Filter.atTop (nhds 0) :=
      tendsto_pow_atTop_nhds_zero_of_lt_one (le_of_lt h0) h1
    have hlim : Filter.Tendsto (fun t : ℕ => c * (1 - γ ^ t)) Filter.atTop
        (nhds (c * (1 - 0))) :=
      (Filter.Tendsto.const_sub 1 hpow).const_mul c
    simp only [sub_zero, mul_one] at hlim
    exact hlim.congr fun t => (ewma_const γ c t).symm
  · rw [ewma_const]
    rw [abs_sub_comm]
    norm_num
    rw [abs_of_nonneg (by norm_num)]
    norm_num

/-- Witness for C2: γ = 1/2, c = 0 — the Ewma of the constant zero
input tends to zero. -/
theorem ewma_const_converges_witness :
    Filter.Tendsto (fun t => ewma ((1:ℝ)/2) (fun _ => (0:ℝ)) t)
      Filter.atTop (nhds 0) :=
  ewma_const_converges.1 (1/2) 0 (by norm_num) (by norm_num)

/-- C3 counterexample: with the invalid hyperparameter γ = 2 ∉ [0,1),
`rmsprop` does not reject the configuration with a validation failure:
the update runs and modifies both the state (to `[-1]`) and the
parameter data. -/
theorem rmsprop_invalid_gamma_not_rejected :
    (rmspropStep (fun q => q)
        { lr := 1/100, momentum := 0, gamma := 2, t := 1 }
        ⟨[0], [1]⟩ [0]).2 ≠ [0] ∧
    (rmspropStep (fun q => q)
        { lr := 1/100, momentum := 0, gamma := 2, t := 1 }
        ⟨[0], [1]⟩ [0]).1.data ≠ [0] := by
  constructor <;>
    · simp [rmspropStep, tadd, smul, square, tsub, tdiv, tsqrt, addc]
      norm_num

/-- C3 (amended): the update rules perform no hyperparameter
validation: for every hyperparameter record — including γ outside
[0,1) — `rmsprop` unconditionally applies its recurrence to every
parameter-state pair, and `adam` likewise always runs and increments
`t`; both are total functions that never fail. -/
theorem update_rules_never_validate (rt : ℚ → ℚ) (hp : Hyperparams)
    (p : Param) (s : Tensor) :
    (rmspropStep rt hp p s).2 =
      List.zipWith (fun sj gj => hp.gamma * sj + (1 - hp.gamma) * (gj * gj))
        s p.grad ∧
    (rmspropStep rt hp p s).1.grad = p.grad ∧
    ∀ params states, (adam rt params states hp).2.2.t = hp.t + 1 :=
  ⟨rmspropStep_state rt hp p s, rfl, fun _ _ => rfl⟩

theorem zipWith_replicate_right_map {α β γ : Type} (f : α → β → γ) :
    ∀ (l : List α) (b : β),
      List.zipWith f l (List.replicate l.length b) = l.map (fun x => f x b)
  | [], _ => rfl
  | a :: t, b => by
    simp only [List.length_cons, List.replicate_succ, List.zipWith_cons_cons,
      List.map_cons, List.cons.injEq, true_and]
    exact zipWith_replicate_right_map f t b

/-- C7: one Adam step at t = 1 (β1 = 0.9, β2 = 0.999 hardcoded) with
zero initial state and every gradient element equal to 1 yields
v = 0.1 and s = 0.001 elementwise, bias-corrected v̂ = 0.1/(1-0.9) = 1
and ŝ = 0.001/(1-0.999) = 1, and a parameter update of magnitude
lr·1/(1+ε) in every coordinate. -/
theorem adam_t1_unit_gradient (rt : ℚ → ℚ) (lr g0 m0 : ℚ) (l : Tensor)
    (hrt : rt 1 = 1) :
    adamStep rt { lr := lr, momentum := m0, gamma := g0, t := 1 }
        ⟨l, List.replicate l.length 1⟩
        (List.replicate l.length 0, List.replicate l.length 0) =
      ({ data := l.map (fun xj => xj - lr * 1 / (1 + 1e-6)),
         grad := List.replicate l.length 1 },
       List.replicate l.length (0.1 : ℚ),
       List.replicate l.length (0.001 : ℚ)) ∧
    sdiv (List.replicate l.length (0.1 : ℚ)) (1 - (0.9 : ℚ) ^ 1) =
      List.replicate l.length 1 ∧
    sdiv (List.replicate l.length (0.001 : ℚ)) (1 - (0.999 : ℚ) ^ 1) =
      List.replicate l.length 1 := by
  refine ⟨?_, ?_, ?_⟩
  · simp only [adamStep, tadd, smul, sdiv, addc, tsqrt, square, tsub, tdiv,
      List.map_replicate, List.zipWith_replicate, min_self, hrt]
    norm_num
    rw [zipWith_replicate_right_map]
    rw [hrt]
    norm_num
  · simp only [sdiv, List.map_replicate]
    norm_num
  · simp only [sdiv, List.map_replicate]
    norm_num

/-- Witness for C7: data `[7]`, learning rate 3, square root
instantiated with the identity function. -/
theorem adam_t1_unit_gradient_witness :
    adamStep (fun q => q) { lr := 3, momentum := 0, gamma := 0, t := 1 }
        ⟨[7], List.replicate ([7] : Tensor).length 1⟩
        (List.replicate ([7] : Tensor).length 0,
         List.replicate ([7] : Tensor).length 0) =
      ({ data := ([7] : Tensor).map (fun xj => xj - 3 * 1 / (1 + 1e-6)),
         grad := List.replicate ([7] : Tensor).length 1 },
       List.replicate ([7] : Tensor).length (0.1 : ℚ),
       List.replicate ([7] : Tensor).length (0.001 : ℚ)) ∧
    sdiv (List.replicate ([7] : Tensor).length (0.1 : ℚ))
        (1 - (0.9 : ℚ) ^ 1) = List.replicate ([7] : Tensor).length 1 ∧
    sdiv (List.replicate ([7] : Tensor).length (0.001 : ℚ))
        (1 - (0.999 : ℚ) ^ 1) = List.replicate ([7] : Tensor).length 1 :=
  adam_t1_unit_gradient (fun q => q) 3 0 0 [7] rfl

end Notebooks
